import Mathlib

/-!
# Verification of `cli-recorder` (`src/main.rs`)

A shallow embedding of the audio-recording CLI tool. The embedding models:

* the per-sample `f32 → i16` conversion performed inside the input-stream
  callback (`main.rs` lines 79–81): `f32` values are modelled as exact
  rationals plus explicit NaN and infinity constructors; the final Rust
  `as i16` cast is modelled with Rust's documented saturating,
  truncate-toward-zero semantics. The single `f32` multiplication
  `clamped * 32767.0` is modelled by exact rational multiplication: both
  factors are exact, and because the clamped factor lies in `[-1, 1]` the
  exact product lies in `[-32767, 32767]`, an interval whose endpoints are
  exactly representable, so IEEE round-to-nearest cannot move the product
  outside any bound proved here;
* the shared session state of `record_audio` (the `running` flag, the
  mutex-guarded optional WAV writer, the negotiated configuration) and the
  three state transformers acting on it: the input-stream callback
  (lines 76–84), the ctrl-c handler (lines 60–62) and the finalize step
  (lines 96–99);
* the startup phase of `record_audio` (lines 40–55): the sample-format
  check followed by creation of the WAV writer, with the file system
  modelled as the list of existing path strings;
* `make_unique_filename` (lines 105–120), with `Path::exists` modelled as
  membership in that list and the `format!("{}_{}.{}", …)` candidate loop
  modelled by the least free probe index;
* the device-selection filter of `parse_args_and_select_device`
  (lines 137–149).
-/

/-- Model of a Rust `f32` value: NaN, the two infinities, or a finite value
modelled as an exact rational number. -/
inductive F32 where
  | nan : F32
  | inf : F32
  | neginf : F32
  | val : ℚ → F32
deriving DecidableEq

/-- Rust `f32::max`: if one of the arguments is NaN, the other is returned;
otherwise the larger argument. -/
def F32.fmax : F32 → F32 → F32
  | .nan, b => b
  | a, .nan => a
  | .inf, _ => .inf
  | _, .inf => .inf
  | .neginf, b => b
  | a, .neginf => a
  | .val p, .val q => .val (max p q)

/-- Rust `f32::min`: if one of the arguments is NaN, the other is returned;
otherwise the smaller argument. -/
def F32.fmin : F32 → F32 → F32
  | .nan, b => b
  | a, .nan => a
  | .neginf, _ => .neginf
  | _, .neginf => .neginf
  | .inf, b => b
  | a, .inf => a
  | .val p, .val q => .val (min p q)

/-- `sample.max(-1.0).min(1.0)` from the input callback (line 79). -/
def clampSample (s : F32) : F32 :=
  (s.fmax (F32.val (-1))).fmin (F32.val 1)

/-- `clamped * i16::MAX as f32` from the input callback (line 80);
`i16::MAX as f32` is exactly `32767.0`. -/
def scaleSample : F32 → F32
  | .nan => .nan
  | .inf => .inf
  | .neginf => .neginf
  | .val q => .val (q * 32767)

/-- Truncation toward zero of a rational, the rounding used by Rust's
float-to-integer `as` casts. -/
def ratTruncToInt (q : ℚ) : ℤ :=
  if 0 ≤ q then ⌊q⌋ else ⌈q⌉

/-- Rust's `as i16` cast of an `f32`: truncate toward zero and saturate to
the `i16` range; NaN casts to `0`. -/
def castF32toI16 : F32 → ℤ
  | .nan => 0
  | .inf => 32767
  | .neginf => -32768
  | .val q => max (-32768) (min 32767 (ratTruncToInt q))

/-- The whole per-sample conversion of the input callback (lines 79–80):
clamp to `[-1, 1]`, scale by `i16::MAX`, cast to `i16`. -/
def convertSample (s : F32) : ℤ :=
  castF32toI16 (scaleSample (clampSample s))

/-- The shared state of a recording session inside `record_audio`:
the atomic `running` flag, the mutex-guarded optional WAV writer (modelled
as the list of `i16` samples written so far), the finalized file contents
(if finalize already ran), and the data fixed at setup time (output path
and negotiated configuration). -/
structure SessionState where
  running : Bool
  sink : Option (List ℤ)
  finalized : Option (List ℤ)
  outputPath : String
  channels : Nat
  sampleRate : Nat
deriving DecidableEq

/-- The input-stream callback (lines 76–84): if the writer is present,
append the conversion of every sample of the buffer, in order; if the
writer was already taken, do nothing. -/
def inputCallback (st : SessionState) (data : List F32) : SessionState :=
  match st.sink with
  | some w => { st with sink := some (w ++ data.map convertSample) }
  | none => st

/-- The ctrl-c handler (lines 60–62): store `false` into the shared
`running` flag. -/
def ctrlcHandler (st : SessionState) : SessionState :=
  { st with running := false }

/-- The finalize step (lines 96–99): take the writer out of the mutex
(leaving `None`) and, if one was present, finalize the file. -/
def finalizeSession (st : SessionState) : SessionState :=
  match st.sink with
  | some w => { st with sink := none, finalized := some w }
  | none => st

/-- The sample formats of `cpal::SampleFormat`. -/
inductive SampleFormat where
  | i8 | i16 | i32 | i64 | u8 | u16 | u32 | u64 | f32 | f64
deriving DecidableEq

/-- A device's default input configuration (the parts `record_audio`
reads from `cpal::SupportedStreamConfig`). -/
structure AudioConfig where
  channels : Nat
  sampleRate : Nat
  sampleFormat : SampleFormat
deriving DecidableEq

/-- Errors of the startup phase of `record_audio`. -/
inductive RecError where
  | unsupportedFormat
  | ioError
deriving DecidableEq

/-- The startup phase of `record_audio` (lines 40–55), given the device's
default input configuration and the file system modelled as the list of
existing paths: check that the sample format is `F32` (line 43, returning
the `unsupported format` error otherwise), then create the WAV writer at
`filename` (lines 47–55), which adds the file to the file system.
Returns the result together with the file system afterwards. -/
def recordAudioSetup (cfg : AudioConfig) (filename : String) (fs : List String) :
    Except RecError SessionState × List String :=
  if cfg.sampleFormat ≠ SampleFormat.f32 then
    (Except.error RecError.unsupportedFormat, fs)
  else
    (Except.ok { running := true, sink := some [], finalized := none,
                 outputPath := filename, channels := cfg.channels,
                 sampleRate := cfg.sampleRate },
     filename :: fs)

/-- An input device as seen by `parse_args_and_select_device`: only its
name is read; `none` models a device whose `name()` call fails. -/
structure Device where
  name : Option String
deriving DecidableEq

/-- Rust `str::to_lowercase`, modelled characterwise (exact on ASCII,
which covers every string a claim mentions). -/
def lowerStr (s : String) : String :=
  String.mk (s.data.map Char.toLower)

/-- Rust `str::contains` with a string pattern: `needle` occurs as a
contiguous substring of `hay`. -/
def containsSub (hay needle : List Char) : Bool :=
  match hay with
  | [] => needle.isEmpty
  | _ :: t => needle.isPrefixOf hay || containsSub t needle

/-- The filter closure of `parse_args_and_select_device` (lines 143–147):
a device matches when its name lowercased contains the (already
lowercased) query as a substring; a device whose name cannot be read
never matches (`unwrap_or(false)`). -/
def deviceMatches (queryLower : String) (d : Device) : Bool :=
  match d.name with
  | some n => containsSub (lowerStr n).data queryLower.data
  | none => false

/-- Device selection (lines 137–149): lowercase the query, then return
the first enumerated device whose name matches, or the
`No matching device found` error if none does. -/
def selectDevice (devices : List Device) (query : String) : Except String Device :=
  match devices.find? (deviceMatches (lowerStr query)) with
  | some d => Except.ok d
  | none => Except.error "No matching device found"

/-- The part of `l` strictly after the last occurrence of `c`
(all of `l` when `c` does not occur in `l`). -/
def afterLast (c : Char) (l : List Char) : List Char :=
  (l.reverse.takeWhile (fun x => x != c)).reverse

/-- The part of `l` strictly before the last occurrence of `c`
(`[]` when `c` does not occur in `l`). -/
def beforeLast (c : Char) (l : List Char) : List Char :=
  ((l.reverse.dropWhile (fun x => x != c)).drop 1).reverse

/-- `Path::file_name` of a path string: the component after the last
path separator. (Trailing-separator and `..` corner cases of `std::path`
are not modelled; no claim involves them.) -/
def fileNameOf (p : String) : List Char := afterLast '/' p.data

/-- `Path::file_stem` on a file name: the part before the last `.`,
except that a name whose only `.` is a leading one is its own stem. -/
def fileStemOf (name : List Char) : List Char :=
  if '.' ∈ name.drop 1 then beforeLast '.' name else name

/-- `Path::extension` on a file name: the part after the last `.`, if
that `.` is not the leading character. -/
def extensionOf (name : List Char) : Option (List Char) :=
  if '.' ∈ name.drop 1 then some (afterLast '.' name) else none

/-- `format!("{}_{}.{}", stem, i, ext)` (line 114): the `i`-th probe
candidate of `make_unique_filename`. -/
def candidateName (stem ext : List Char) (i : Nat) : String :=
  String.mk (stem ++ '_' :: (Nat.repr i).data ++ '.' :: ext)

/-- One step of reading a decimal digit character into an accumulator. -/
def decDigitStep (a : Nat) (c : Char) : Nat := 10 * a + (c.toNat - 48)

theorem digitChar_toNat_sub (d : Nat) (hd : d < 10) :
    (Nat.digitChar d).toNat - 48 = d := by
  interval_cases d <;> decide

theorem decDigitStep_digitChar (a d : Nat) (hd : d < 10) :
    decDigitStep a (Nat.digitChar d) = 10 * a + d := by
  unfold decDigitStep
  rw [digitChar_toNat_sub d hd]

theorem foldl_toDigitsCore (f : Nat) : ∀ (n : Nat) (acc : List Char), n < f →
    (Nat.toDigitsCore 10 f n acc).foldl decDigitStep 0 = acc.foldl decDigitStep n := by
  induction f with
  | zero => intro n acc h; exact absurd h (Nat.not_lt_zero n)
  | succ f ih =>
    intro n acc hn
    by_cases h10 : n / 10 = 0
    · simp only [Nat.toDigitsCore, h10, if_true, List.foldl_cons]
      rw [decDigitStep_digitChar 0 (n % 10) (Nat.mod_lt n (by norm_num))]
      have hmod : 10 * 0 + n % 10 = n := by omega
      rw [hmod]
    · simp only [Nat.toDigitsCore, h10, if_false]
      rw [ih (n / 10) (Nat.digitChar (n % 10) :: acc) (by omega),
        List.foldl_cons,
        decDigitStep_digitChar (n / 10) (n % 10) (Nat.mod_lt n (by norm_num))]
      have hdm : 10 * (n / 10) + n % 10 = n := by omega
      rw [hdm]

/-- Reading the decimal rendering of `n` back yields `n`. -/
theorem decVal_reprData (n : Nat) :
    (Nat.repr n).data.foldl decDigitStep 0 = n := by
  show (Nat.toDigitsCore 10 (n + 1) n []).foldl decDigitStep 0 = n
  rw [foldl_toDigitsCore (n + 1) n [] (Nat.lt_succ_self n)]
  rfl

theorem reprData_injective : Function.Injective (fun n => (Nat.repr n).data) := by
  intro m n h
  have hm := decVal_reprData m
  simp only at h
  rw [h, decVal_reprData n] at hm
  exact hm.symm

theorem candidateName_injective (stem ext : List Char) :
    Function.Injective (candidateName stem ext) := by
  intro i j h
  have hd : stem ++ '_' :: (Nat.repr i).data ++ '.' :: ext
      = stem ++ '_' :: (Nat.repr j).data ++ '.' :: ext := congrArg String.data h
  have h1 := List.append_cancel_right hd
  have h2 := List.append_cancel_left h1
  exact reprData_injective ((List.cons.injEq _ _ _ _).mp h2).2

/-- Only finitely many files exist, and the probe candidates are pairwise
distinct, so some probe index is free. -/
theorem exists_free_candidate (fs : List String) (stem ext : List Char) :
    ∃ k, candidateName stem ext (k + 1) ∉ fs := by
  by_contra hall
  push_neg at hall
  have hinj : Function.Injective (fun k => candidateName stem ext (k + 1)) := by
    intro a b hab
    have := candidateName_injective stem ext hab
    omega
  have hsub : Set.range (fun k => candidateName stem ext (k + 1)) ⊆ {x | x ∈ fs} := by
    rintro x ⟨k, rfl⟩
    exact hall k
  exact Set.infinite_range_of_injective hinj (Set.Finite.subset fs.finite_toSet hsub)

/-- `make_unique_filename` (lines 105–120), with the file system modelled
as the list `fs` of existing paths: if no file exists at `filename`,
return it unchanged; otherwise split the final component into stem and
extension (defaulting the extension to `wav`) and return the first probe
candidate `stem_i.ext`, `i = 1, 2, …`, that does not exist. The least
free probe index realises the source's unbounded `loop`. -/
def make_unique_filename (fs : List String) (filename : String) : String :=
  if filename ∈ fs then
    let name := fileNameOf filename
    let stem := fileStemOf name
    let ext := (extensionOf name).getD "wav".data
    candidateName stem ext (Nat.find (exists_free_candidate fs stem ext) + 1)
  else filename

/-! ## Bounds of the per-sample conversion -/

theorem ratTruncToInt_bounds {q : ℚ} {lo hi : ℤ} (hlo : (lo : ℚ) ≤ q)
    (hhi : q ≤ (hi : ℚ)) : lo ≤ ratTruncToInt q ∧ ratTruncToInt q ≤ hi := by
  unfold ratTruncToInt
  by_cases h : 0 ≤ q
  · rw [if_pos h]
    constructor
    · calc lo = ⌊(lo : ℚ)⌋ := (Int.floor_intCast lo).symm
        _ ≤ ⌊q⌋ := Int.floor_mono hlo
    · calc ⌊q⌋ ≤ ⌊(hi : ℚ)⌋ := Int.floor_mono hhi
        _ = hi := Int.floor_intCast hi
  · rw [if_neg h]
    constructor
    · calc lo = ⌈(lo : ℚ)⌉ := (Int.ceil_intCast lo).symm
        _ ≤ ⌈q⌉ := Int.ceil_mono hlo
    · calc ⌈q⌉ ≤ ⌈(hi : ℚ)⌉ := Int.ceil_mono hhi
        _ = hi := Int.ceil_intCast hi

theorem ratTruncToInt_intCast (z : ℤ) : ratTruncToInt (z : ℚ) = z := by
  unfold ratTruncToInt
  split
  · exact Int.floor_intCast z
  · exact Int.ceil_intCast z

theorem ratTruncToInt_eval (q : ℚ) (z : ℤ) (h : q = (z : ℚ)) :
    ratTruncToInt q = z := by
  rw [h, ratTruncToInt_intCast]

theorem castF32toI16_val_eval (q : ℚ) (z : ℤ) (hz : q = (z : ℚ))
    (h1 : -32768 ≤ z) (h2 : z ≤ 32767) : castF32toI16 (F32.val q) = z := by
  show max (-32768) (min 32767 (ratTruncToInt q)) = z
  rw [ratTruncToInt_eval q z hz, min_eq_right h2, max_eq_right (by omega)]

/-- On a finite input the whole conversion is the truncation of the
clamped, scaled value: the `as i16` saturation never fires. -/
theorem convertSample_val (q : ℚ) :
    convertSample (F32.val q) = ratTruncToInt (min (max q (-1)) 1 * 32767) := by
  have hd : convertSample (F32.val q)
      = max (-32768) (min 32767 (ratTruncToInt (min (max q (-1)) 1 * 32767))) := rfl
  rw [hd]
  have hq1 : (-1 : ℚ) ≤ min (max q (-1)) 1 :=
    le_min (le_max_right q (-1)) (by norm_num)
  have hq2 : min (max q (-1)) 1 ≤ 1 := min_le_right _ _
  have h1 : ((-32767 : ℤ) : ℚ) ≤ min (max q (-1)) 1 * 32767 := by
    push_cast
    nlinarith [hq1]
  have h2 : min (max q (-1)) 1 * 32767 ≤ ((32767 : ℤ) : ℚ) := by
    push_cast
    nlinarith [hq2]
  have hb := ratTruncToInt_bounds h1 h2
  rw [min_eq_right hb.2, max_eq_right (by linarith [hb.1])]

/-- Whatever the input — finite, infinite or NaN — the clamp step yields a
finite value in `[-1, 1]`. -/
theorem clampSample_bounds (s : F32) :
    ∃ q : ℚ, clampSample s = F32.val q ∧ -1 ≤ q ∧ q ≤ 1 := by
  cases s with
  | nan => exact ⟨-1, by decide, by norm_num, by norm_num⟩
  | inf => exact ⟨1, by decide, by norm_num, by norm_num⟩
  | neginf => exact ⟨-1, by decide, by norm_num, by norm_num⟩
  | val q =>
    refine ⟨min (max q (-1)) 1, rfl, ?_, min_le_right _ _⟩
    exact le_min (le_max_right q (-1)) (by norm_num)

/-- The conversion of any sample lies in `[-32767, 32767]`. -/
theorem convertSample_bounds (s : F32) :
    -32767 ≤ convertSample s ∧ convertSample s ≤ 32767 := by
  obtain ⟨q, hq, hlo, hhi⟩ := clampSample_bounds s
  unfold convertSample
  rw [hq]
  simp only [scaleSample, castF32toI16]
  have h1 : ((-32767 : ℤ) : ℚ) ≤ q * 32767 := by push_cast; nlinarith
  have h2 : q * 32767 ≤ ((32767 : ℤ) : ℚ) := by push_cast; nlinarith
  have hb := ratTruncToInt_bounds h1 h2
  rw [min_eq_right hb.2, max_eq_right (by linarith [hb.1])]
  exact hb

/-- **C1.** For every `f32` sample value `s`, the per-sample conversion of
the audio callback — clamp `s` to `[-1, 1]`, multiply by `i16::MAX`,
truncate toward zero — produces a result inside the 16-bit signed integer
range, including at the boundaries `s = -1.0` and `s = 1.0` and for `s`
outside `[-1, 1]`. -/
theorem c1_conversion_in_i16_range :
    (∀ s : F32, -32768 ≤ convertSample s ∧ convertSample s ≤ 32767) ∧
    convertSample (F32.val 1) = 32767 ∧
    convertSample (F32.val (-1)) = -32767 ∧
    convertSample (F32.val (3 / 2)) = 32767 ∧
    convertSample (F32.val 2) = 32767 ∧
    convertSample (F32.val (-2)) = -32767 := by
  refine ⟨fun s => ⟨by linarith [(convertSample_bounds s).1],
    (convertSample_bounds s).2⟩, ?_, ?_, ?_, ?_, ?_⟩ <;>
  · rw [convertSample_val]
    exact ratTruncToInt_eval _ _ (by norm_num [max_def, min_def])

/-- **C10.** The per-sample conversion is total over all `f32` inputs,
NaN and infinities included: it always yields a value in the 16-bit
signed range; a NaN input is clamped to `-1.0` (Rust `max`, then `min`,
each return the non-NaN operand) and converts to `-32767`, the most
negative value the conversion can produce. -/
theorem c10_conversion_total_nan_converts_lowest :
    convertSample F32.nan = -32767 ∧
    clampSample F32.nan = F32.val (-1) ∧
    convertSample F32.inf = 32767 ∧
    convertSample F32.neginf = -32767 ∧
    (∀ s : F32, -32767 ≤ convertSample s ∧ convertSample s ≤ 32767) := by
  have hnan : convertSample F32.nan
      = castF32toI16 (F32.val (min (-1 : ℚ) 1 * 32767)) := rfl
  have hinf : convertSample F32.inf
      = castF32toI16 (F32.val ((1 : ℚ) * 32767)) := rfl
  have hninf : convertSample F32.neginf
      = castF32toI16 (F32.val (min (-1 : ℚ) 1 * 32767)) := rfl
  refine ⟨?_, by decide, ?_, ?_, convertSample_bounds⟩
  · rw [hnan]
    exact castF32toI16_val_eval _ _ (by norm_num [min_def]) (by norm_num) (by norm_num)
  · rw [hinf]
    exact castF32toI16_val_eval _ _ (by norm_num) (by norm_num) (by norm_num)
  · rw [hninf]
    exact castF32toI16_val_eval _ _ (by norm_num [min_def]) (by norm_num) (by norm_num)

/-! ## Startup, callback, interrupt and finalize -/

/-- **C2.** If the device's default input configuration has a sample
format other than 32-bit float, setup fails with the unsupported-format
error and no output file is created: the check at line 43 runs before the
`WavWriter` creation at lines 53–55, so the file system is unchanged. -/
theorem c2_unsupported_format_creates_no_file (cfg : AudioConfig)
    (filename : String) (fs : List String)
    (h : cfg.sampleFormat ≠ SampleFormat.f32) :
    recordAudioSetup cfg filename fs = (Except.error RecError.unsupportedFormat, fs) := by
  simp [recordAudioSetup, h]

theorem c2_witness :
    recordAudioSetup { channels := 2, sampleRate := 44100, sampleFormat := SampleFormat.i16 }
        "out.wav" ["other.wav"]
      = (Except.error RecError.unsupportedFormat, ["other.wav"]) :=
  c2_unsupported_format_creates_no_file _ "out.wav" ["other.wav"] (by decide)

/-- **C5.** While the sink is present, a buffer of `N` samples makes the
sink receive exactly the `N` conversions, in order: the new sink contents
are the old ones followed by the elementwise conversion of the buffer,
and the `i`-th appended integer is the conversion of the `i`-th float. -/
theorem c5_callback_appends_in_order (st : SessionState) (w : List ℤ)
    (data : List F32) (h : st.sink = some w) :
    (inputCallback st data).sink = some (w ++ data.map convertSample) ∧
    (w ++ data.map convertSample).length = w.length + data.length ∧
    ∀ i : Nat, ∀ s : F32, data[i]? = some s →
      (w ++ data.map convertSample)[w.length + i]? = some (convertSample s) := by
  refine ⟨by simp [inputCallback, h], by simp, ?_⟩
  intro i s hs
  rw [List.getElem?_append_right (by omega)]
  have hi : w.length + i - w.length = i := by omega
  rw [hi, List.getElem?_map, hs]
  rfl

theorem c5_witness :
    (inputCallback
        { running := true, sink := some [5], finalized := none,
          outputPath := "out.wav", channels := 1, sampleRate := 48000 }
        [F32.val 1, F32.val 0, F32.nan]).sink
      = some [5, 32767, 0, -32767] := by
  have h := (c5_callback_appends_in_order
    { running := true, sink := some [5], finalized := none,
      outputPath := "out.wav", channels := 1, sampleRate := 48000 }
    [5] [F32.val 1, F32.val 0, F32.nan] rfl).1
  rw [h]
  have e1 : convertSample (F32.val 1) = 32767 := by
    rw [convertSample_val]
    exact ratTruncToInt_eval _ _ (by norm_num [max_def, min_def])
  have e2 : convertSample (F32.val 0) = 0 := by
    rw [convertSample_val]
    exact ratTruncToInt_eval _ _ (by norm_num [max_def, min_def])
  have e3 : convertSample F32.nan = -32767 := by
    have hd : convertSample F32.nan
        = castF32toI16 (F32.val (min (-1 : ℚ) 1 * 32767)) := rfl
    rw [hd]
    exact castF32toI16_val_eval _ _ (by norm_num [min_def]) (by norm_num) (by norm_num)
  simp [e1, e2, e3]

/-- **C6.** The sink's `Some`-to-`None` transition at finalize is one-way
and happens at most once: right after a finalize the sink is absent, and
a second finalize attempt changes nothing — it writes nothing, finalizes
nothing, and does not panic (it is a total function equal to the
identity there). -/
theorem c6_finalize_one_way (st : SessionState) :
    (finalizeSession st).sink = none ∧
    finalizeSession (finalizeSession st) = finalizeSession st := by
  cases h : st.sink <;> simp [finalizeSession, h]

/-- **C7.** When the callback runs after the sink has been taken for
finalize, the whole buffer is discarded: no sample is written, no error
is raised, and the shared state is left entirely unchanged. -/
theorem c7_callback_discards_after_take (st : SessionState) (data : List F32)
    (h : st.sink = none) : inputCallback st data = st := by
  simp [inputCallback, h]

theorem c7_witness :
    inputCallback
        { running := false, sink := none, finalized := some [7],
          outputPath := "out.wav", channels := 2, sampleRate := 44100 }
        [F32.val 1, F32.inf]
      = { running := false, sink := none, finalized := some [7],
          outputPath := "out.wav", channels := 2, sampleRate := 44100 } :=
  c7_callback_discards_after_take _ [F32.val 1, F32.inf] rfl

/-- **C8.** The interrupt handler's only effect is the single store that
clears the shared stop flag: `running` becomes `false` and every other
component of the shared state — the sink, the finalized data, the output
path, the stream configuration — is unchanged. -/
theorem c8_handler_only_clears_flag (st : SessionState) :
    (ctrlcHandler st).running = false ∧
    (ctrlcHandler st).sink = st.sink ∧
    (ctrlcHandler st).finalized = st.finalized ∧
    (ctrlcHandler st).outputPath = st.outputPath ∧
    (ctrlcHandler st).channels = st.channels ∧
    (ctrlcHandler st).sampleRate = st.sampleRate := by
  simp [ctrlcHandler]

/-! ## Device selection -/

theorem containsSub_iff (hay needle : List Char) :
    containsSub hay needle = true ↔ needle <:+: hay := by
  induction hay with
  | nil => simp [containsSub, List.isEmpty_iff]
  | cons c t ih =>
    simp only [containsSub, Bool.or_eq_true, List.isPrefixOf_iff_prefix, ih]
    exact (List.infix_cons_iff).symm

/-- **C4.** For every query and device list, selection returns the first
device in enumeration order whose name contains the query
case-insensitively, and fails with the no-matching-device error when no
device matches; in particular, for devices named `USB Mic` and
`Built-in Microphone` and query `mic`, it returns the `USB Mic` device. -/
theorem c4_first_matching_device (devices : List Device) (query : String) :
    ((∀ d ∈ devices, deviceMatches (lowerStr query) d = false) →
      selectDevice devices query = Except.error "No matching device found") ∧
    (∀ d : Device, selectDevice devices query = Except.ok d →
      d ∈ devices ∧ deviceMatches (lowerStr query) d = true ∧
      ∃ i : Nat, ∃ hi : i < devices.length, devices[i] = d ∧
        ∀ j : Nat, ∀ hj : j < devices.length, j < i →
          deviceMatches (lowerStr query) devices[j] = false) ∧
    (∀ n : String, deviceMatches (lowerStr query) { name := some n } = true
      ↔ (lowerStr query).data <:+: (lowerStr n).data) ∧
    selectDevice [{ name := some "USB Mic" }, { name := some "Built-in Microphone" }]
      "mic" = Except.ok { name := some "USB Mic" } := by
  refine ⟨?_, ?_, fun n => containsSub_iff _ _, rfl⟩
  · intro h
    have hnone : devices.find? (deviceMatches (lowerStr query)) = none :=
      List.find?_eq_none.mpr (fun x hx => by simp [h x hx])
    simp [selectDevice, hnone]
  · intro d hd
    cases hf : devices.find? (deviceMatches (lowerStr query)) with
    | none => simp [selectDevice, hf] at hd
    | some d' =>
      have hdd : d' = d := by
        simpa [selectDevice, hf] using hd
      subst hdd
      rw [List.find?_eq_some_iff_getElem] at hf
      obtain ⟨hp, i, hi, hieq, hprior⟩ := hf
      refine ⟨hieq ▸ List.getElem_mem hi, hp, i, hi, hieq, ?_⟩
      intro j hj hlt
      have := hprior j hlt
      simpa using this

theorem c4_witness :
    selectDevice [{ name := some "USB Mic" }] "zzz"
      = Except.error "No matching device found" :=
  (c4_first_matching_device [{ name := some "USB Mic" }] "zzz").1 (by decide)

/-! ## Output-path disambiguation -/

theorem make_unique_of_not_mem (fs : List String) (filename : String)
    (h : filename ∉ fs) : make_unique_filename fs filename = filename := by
  simp [make_unique_filename, h]

theorem make_unique_of_mem (fs : List String) (filename : String)
    (h : filename ∈ fs) :
    make_unique_filename fs filename
      = candidateName (fileStemOf (fileNameOf filename))
          ((extensionOf (fileNameOf filename)).getD "wav".data)
          (Nat.find (exists_free_candidate fs (fileStemOf (fileNameOf filename))
              ((extensionOf (fileNameOf filename)).getD "wav".data)) + 1) := by
  simp [make_unique_filename, h]

/-- Evaluation rule: if `filename` exists, candidate `i` is free and all
candidates `1 ≤ j < i` are taken, the result is candidate `i`. -/
theorem make_unique_eval (fs : List String) (filename : String) (i : Nat)
    (hmem : filename ∈ fs) (h1 : 1 ≤ i)
    (hfree : candidateName (fileStemOf (fileNameOf filename))
        ((extensionOf (fileNameOf filename)).getD "wav".data) i ∉ fs)
    (hbusy : ∀ j, 1 ≤ j → j < i →
      candidateName (fileStemOf (fileNameOf filename))
        ((extensionOf (fileNameOf filename)).getD "wav".data) j ∈ fs) :
    make_unique_filename fs filename
      = candidateName (fileStemOf (fileNameOf filename))
          ((extensionOf (fileNameOf filename)).getD "wav".data) i := by
  rw [make_unique_of_mem fs filename hmem]
  have hfind : Nat.find (exists_free_candidate fs (fileStemOf (fileNameOf filename))
      ((extensionOf (fileNameOf filename)).getD "wav".data)) = i - 1 := by
    rw [Nat.find_eq_iff]
    constructor
    · have hii : i - 1 + 1 = i := by omega
      rw [hii]
      exact hfree
    · intro m hm
      simp only [not_not]
      exact hbusy (m + 1) (by omega) (by omega)
  rw [hfind]
  have hii : i - 1 + 1 = i := by omega
  rw [hii]

/-- **C3.** Output-path disambiguation is a function of the requested
path and the set of existing files: a non-existing path comes back
unchanged; an existing one is replaced by the first free candidate
`stem_i.ext` (extension defaulting to `wav`), probed in increasing
order, so the returned path never names an existing file. The spec's
concrete cases: `a.wav` existing gives `a_1.wav`; `a.wav` and `a_1.wav`
existing give `a_2.wav`. -/
theorem c3_disambiguation (fs : List String) (filename : String) :
    (filename ∉ fs → make_unique_filename fs filename = filename) ∧
    (filename ∈ fs → ∃ i, 1 ≤ i ∧
      make_unique_filename fs filename
        = candidateName (fileStemOf (fileNameOf filename))
            ((extensionOf (fileNameOf filename)).getD "wav".data) i ∧
      candidateName (fileStemOf (fileNameOf filename))
          ((extensionOf (fileNameOf filename)).getD "wav".data) i ∉ fs ∧
      ∀ j, 1 ≤ j → j < i →
        candidateName (fileStemOf (fileNameOf filename))
          ((extensionOf (fileNameOf filename)).getD "wav".data) j ∈ fs) ∧
    make_unique_filename fs filename ∉ fs ∧
    make_unique_filename ["a.wav"] "a.wav" = "a_1.wav" ∧
    make_unique_filename ["a.wav", "a_1.wav"] "a.wav" = "a_2.wav" := by
  refine ⟨make_unique_of_not_mem fs filename, ?_, ?_, ?_, ?_⟩
  · intro h
    refine ⟨Nat.find (exists_free_candidate fs (fileStemOf (fileNameOf filename))
        ((extensionOf (fileNameOf filename)).getD "wav".data)) + 1,
      by omega, make_unique_of_mem fs filename h,
      Nat.find_spec (exists_free_candidate fs (fileStemOf (fileNameOf filename))
        ((extensionOf (fileNameOf filename)).getD "wav".data)), ?_⟩
    intro j hj1 hj2
    have hlt : j - 1 < Nat.find (exists_free_candidate fs (fileStemOf (fileNameOf filename))
        ((extensionOf (fileNameOf filename)).getD "wav".data)) := by omega
    have := Nat.find_min (exists_free_candidate fs (fileStemOf (fileNameOf filename))
        ((extensionOf (fileNameOf filename)).getD "wav".data)) hlt
    simpa [Nat.sub_add_cancel hj1, not_not] using this
  · by_cases h : filename ∈ fs
    · rw [make_unique_of_mem fs filename h]
      exact Nat.find_spec (exists_free_candidate fs (fileStemOf (fileNameOf filename))
        ((extensionOf (fileNameOf filename)).getD "wav".data))
    · rw [make_unique_of_not_mem fs filename h]
      exact h
  · have h := make_unique_eval ["a.wav"] "a.wav" 1 (by decide) (by norm_num)
      (by decide) (by intro j hj1 hj2; omega)
    rw [h]
    decide
  · have h := make_unique_eval ["a.wav", "a_1.wav"] "a.wav" 2 (by decide) (by norm_num)
      (by decide) ?_
    · rw [h]
      decide
    · intro j hj1 hj2
      have hj : j = 1 := by omega
      subst hj
      decide

theorem c3_witness : make_unique_filename ["a.wav"] "b.wav" = "b.wav" :=
  (c3_disambiguation ["a.wav"] "b.wav").1 (by decide)

/-- **C9.** Disambiguation discards the requested path's parent
directory: candidates are built from the stem and extension of the final
path component only, so for the existing path `dir/a.wav` the returned
path is `a_1.wav` — relative to the current working directory, not
inside `dir`. -/
theorem c9_directory_dropped :
    (∀ (fs : List String) (filename : String), filename ∈ fs → ∃ i,
      make_unique_filename fs filename
        = candidateName (fileStemOf (fileNameOf filename))
            ((extensionOf (fileNameOf filename)).getD "wav".data) i) ∧
    fileNameOf "dir/a.wav" = "a.wav".data ∧
    make_unique_filename ["dir/a.wav"] "dir/a.wav" = "a_1.wav" ∧
    "a_1.wav" ≠ "dir/a_1.wav" := by
  refine ⟨?_, by decide, ?_, by decide⟩
  · intro fs filename h
    exact ⟨_, make_unique_of_mem fs filename h⟩
  · have h := make_unique_eval ["dir/a.wav"] "dir/a.wav" 1 (by decide) (by norm_num)
      (by decide) (by intro j hj1 hj2; omega)
    rw [h]
    decide

theorem c9_witness :
    ∃ i, make_unique_filename ["x.wav"] "x.wav"
      = candidateName (fileStemOf (fileNameOf "x.wav"))
          ((extensionOf (fileNameOf "x.wav")).getD "wav".data) i :=
  c9_directory_dropped.1 ["x.wav"] "x.wav" (by decide)
